import Mathlib

/-!
Verification development for the `terminal-tree` directory browser
(`tree.py`).  The program's core — the directory-listing cache, the
path-autocompletion suggester, the preview worker, the info bar and the
navigation controller — is shallowly embedded below: Python `Path`
strings become Lean `String`s, the filesystem and the system user
database become explicit function-valued parameters (`FS`, `SysEnv`),
stateful widgets become explicit state records, and Python exceptions
become `Except` / `Option` results.  Each definition mirrors the source
function it is named after.
-/

/-! ## String and path helpers (model of the `pathlib` operations used)

All helpers operate on `String.data` character lists so that every
definition evaluates by kernel reduction on concrete inputs. -/

/-- Lower-casing of a string, modelling Python `str.lower()` (ASCII-faithful). -/
def lowerStr (s : String) : String := ⟨s.data.map Char.toLower⟩

/-- Whether `s` starts with `pre` (Python `str.startswith`). -/
def startsWithStr (s pre : String) : Bool := pre.data.isPrefixOf s.data

/-- Whether the character `c` occurs in `s` (Python `c in s` for a
single-character needle). -/
def containsChar (s : String) (c : Char) : Bool := s.data.contains c

/-- Split a character list at every `/`, keeping empty runs. -/
def splitSlashAux : List Char → List Char → List String
  | [], acc => [⟨acc.reverse⟩]
  | c :: rest, acc =>
    if c = '/' then ⟨acc.reverse⟩ :: splitSlashAux rest []
    else splitSlashAux rest (c :: acc)

/-- Components of a path string as produced by `pathlib`: split on `/`,
dropping empty components and `.` components (pathlib normalises both away). -/
def pathParts (s : String) : List String :=
  (splitSlashAux s.data []).filter (fun p => !(p == "") && !(p == "."))

/-- Whether the path string is absolute. -/
def isAbsPath (s : String) : Bool := ['/'].isPrefixOf s.data

/-- Model of `pathlib.Path(s).name`: the final path component (empty for
`/`, `.` and the empty string, and ignoring a trailing slash, as pathlib does). -/
def pathName (s : String) : String := (pathParts s).getLastD ""

/-- Model of `str(pathlib.Path(s).parent)`: all but the final component,
`/` for the root, `.` for a single relative component. -/
def pathParent (s : String) : String :=
  let parts := (pathParts s).dropLast
  if isAbsPath s then
    if parts.isEmpty then "/" else "/" ++ String.intercalate "/" parts
  else
    if parts.isEmpty then "." else String.intercalate "/" parts

/-- Model of `Path(s).expanduser()` (rendered back to a string) for the
single-user home token: a leading `~` component is replaced by `home`.
The `~otheruser` form is not used by the program and is left unchanged. -/
def expanduser (home : String) (s : String) : String :=
  if s = "~" then home
  else if startsWithStr s "~/" then home ++ ⟨s.data.drop 1⟩
  else s

/-- Replace the first occurrence of `old` in a character list by `new`,
modelling Python `str.replace(old, new, 1)`.  Not recursive: the
replacement text is never rescanned. -/
def replaceOnceList (old new : List Char) : List Char → List Char
  | [] => if old.isEmpty then new else []
  | c :: rest =>
    if old.isPrefixOf (c :: rest) then new ++ (c :: rest).drop old.length
    else c :: replaceOnceList old new rest

/-- String-level wrapper for `replaceOnceList`. -/
def replaceOnce (s old new : String) : String :=
  ⟨replaceOnceList old.data new.data s.data⟩

/-- Whether `old` occurs as a contiguous run inside the character list. -/
def containsSubList (old : List Char) : List Char → Bool
  | [] => old.isEmpty
  | c :: rest => old.isPrefixOf (c :: rest) || containsSubList old rest

/-- Whether `old` occurs as a substring of `s` (Python `old in s`). -/
def strContainsSub (s old : String) : Bool := containsSubList old.data s.data

/-! ## Filesystem model

The program only observes the filesystem through `Path.iterdir`,
`Path.is_dir`, `Path.is_file`, reading a file's leading content, and the
Rich `Syntax` renderer.  All of these are bundled into one explicit
record so every embedded operation is a pure function of it. -/

/-- The two kinds of `OSError` the listing code can meet: a missing
directory (`FileNotFoundError`) and an unreadable one (`PermissionError`). -/
inductive FSError where
  | notFound
  | permissionDenied
deriving DecidableEq, Repr

deriving instance DecidableEq for Except

/-- A filesystem snapshot together with the ambient process environment. -/
structure FS where
  /-- `Path(p).iterdir()` in filesystem iteration order (full child path
  strings), or the `OSError` listing the directory raises. -/
  children : String → Except FSError (List String)
  /-- `Path(p).is_dir()`. -/
  isDir : String → Bool
  /-- `Path(p).is_file()`. -/
  isFile : String → Bool
  /-- Reading the leading content of the file in a worker thread:
  `none` models any exception from `open`/`readlines`. -/
  readLines : String → Option String
  /-- `Syntax.guess_lexer` plus the `Syntax(...)` constructor applied to a
  path and its code: `none` models the constructor raising. -/
  render : String → String → Option String
  /-- `str(Path.home())`, the expansion of the home token. -/
  home : String

/-! ## `ListDirCache` (tree.py lines 73–103)

The cache is a capacity-100 LRU keyed by `(str(path), size)`.  It is
modelled as an association list in most-recent-first order: a hit moves
the entry to the front (textual's `LRUCache.__getitem__` refreshes
recency), an insert goes to the front and the list is truncated to 100
entries (textual's `LRUCache` discards the least recently used entry
when full).  The `ioCount` field counts the `iterdir` calls handed to
the worker thread, observing which calls perform filesystem I/O. -/

/-- The `(str(path), size)` cache key. -/
abbrev LKey := String × Nat

/-- State of one `ListDirCache` instance plus the I/O call counter. -/
structure CacheState where
  cache : List (LKey × List String)
  ioCount : Nat
deriving DecidableEq, Repr

/-- The empty cache, as built by `ListDirCache.__init__`. -/
def CacheState.init : CacheState := ⟨[], 0⟩

/-- Model of `ListDirCache.listdir`: serve a cached listing, or run
`list(itertools.islice(path.iterdir(), size))` in a thread and cache the
result.  An `OSError` from `iterdir` propagates and nothing is stored. -/
def ListDirCache.listdir (fs : FS) (st : CacheState) (path : String) (size : Nat) :
    Except FSError (List String) × CacheState :=
  let key : LKey := (path, size)
  match st.cache.find? (fun kv => kv.1 == key) with
  | some kv =>
    (.ok kv.2, { st with cache := (key, kv.2) :: st.cache.filter (fun kv2 => kv2.1 != key) })
  | none =>
    match fs.children path with
    | .error e => (.error e, { st with ioCount := st.ioCount + 1 })
    | .ok cs =>
      let v := cs.take size
      (.ok v, { cache := ((key, v) :: st.cache.filter (fun kv2 => kv2.1 != key)).take 100,
                ioCount := st.ioCount + 1 })

/-! ## `DirectorySuggester` (tree.py lines 106–145) -/

/-- The directory whose children `get_suggestion` lists:
`path.expanduser() if path.is_dir() else path.parent.expanduser()`
(note the `is_dir` test is on the unexpanded value, as in the source). -/
def DirectorySuggester.listTarget (fs : FS) (value : String) : String :=
  if fs.isDir value then expanduser fs.home value
  else expanduser fs.home (pathParent value)

/-- The list comprehension in `get_suggestion`: children that are
directories and whose name starts (case-insensitively) with the typed
final component, rendered as `f"{sibling_path}/"`. -/
def DirectorySuggester.possiblePaths (fs : FS) (value : String) (children : List String) :
    List String :=
  (children.filter (fun c =>
      startsWithStr (lowerStr (pathName c)) (lowerStr (pathName value)) && fs.isDir c)).map
    (fun c => c ++ "/")

/-- Stable insertion of a string into a list sorted by length: equal
lengths keep the incoming element first, matching the stability of
Python's `list.sort`. -/
def insertByLen (x : String) : List String → List String
  | [] => [x]
  | y :: ys => if y.length < x.length then y :: insertByLen x ys else x :: y :: ys

/-- Stable sort by string length, modelling `possible_paths.sort(key=str.__len__)`. -/
def sortByLen : List String → List String
  | [] => []
  | x :: xs => insertByLen x (sortByLen xs)

/-- Model of `DirectorySuggester.get_suggestion`.  The body mirrors the
source: list the target directory through the cache (a
`FileNotFoundError` is caught and yields `None`; any other `OSError`
propagates out of the coroutine), filter to matching child directories,
stable-sort by length, take the first, and rewrite the home directory to
`~` once when the typed value contains `~`. -/
def DirectorySuggester.get_suggestion (fs : FS) (st : CacheState) (value : String) :
    Except FSError (Option String) × CacheState :=
  let r := ListDirCache.listdir fs st (DirectorySuggester.listTarget fs value) 100
  match r.1 with
  | .error .notFound => (.ok none, r.2)
  | .error e => (.error e, r.2)
  | .ok children =>
    let possible := DirectorySuggester.possiblePaths fs value children
    if possible.isEmpty then (.ok none, r.2)
    else
      let suggestion := (sortByLen possible).headD ""
      let suggestion :=
        if containsChar value '~' then replaceOnce suggestion fs.home "~" else suggestion
      (.ok (some suggestion), r.2)

example : pathName "/usr/lib/" = "lib" := by decide
example : pathParent "ab" = "." := by decide
example : pathParent "/usr/lib" = "/usr" := by decide
example : expanduser "/home/u" "~/x" = "/home/u/x" := by decide
example : replaceOnce "/h/a/" "/h" "~" = "~/a/" := by decide
example : sortByLen ["abcx/", "abcde/", "ab/"] = ["ab/", "abcx/", "abcde/"] := by decide

/-! ## `InfoBar` (tree.py lines 166–218)

The info bar widget recomposes a row of labels for the highlighted path.
`compose` is embedded as a pure function from the system environment to
the list of labels it yields; the `try`/`except` around `stat` becomes a
`match` on an `Except` value. -/

/-- A naive calendar datetime, the fields `strftime` reads. -/
structure PyDateTime where
  year : Nat
  month : Nat
  day : Nat
  hour : Nat
  minute : Nat
deriving DecidableEq, Repr

/-- Zero-padded two-digit rendering, as the C `strftime` directives
`%d`, `%H` and `%M` produce for in-range values. -/
def pad2 (n : Nat) : String := if n < 10 then "0" ++ toString n else toString n

/-- English abbreviated month name, the `%b` directive in the C locale. -/
def monthAbbr (m : Nat) : String :=
  ["Jan", "Feb", "Mar", "Apr", "May", "Jun",
   "Jul", "Aug", "Sep", "Oct", "Nov", "Dec"].getD (m - 1) ""

/-- Interpreter for the `strftime` format directives the program uses
(`%d`, `%b`, `%H`, `%M`, `%Y`); ordinary characters are copied through. -/
def strftime (dt : PyDateTime) : List Char → String
  | [] => ""
  | '%' :: c :: rest =>
    (match c with
     | 'd' => pad2 dt.day
     | 'b' => monthAbbr dt.month
     | 'H' => pad2 dt.hour
     | 'M' => pad2 dt.minute
     | 'Y' => toString dt.year
     | other => ⟨['%', other]⟩) ++ strftime dt rest
  | c :: rest => String.singleton c ++ strftime dt rest

/-- Model of `InfoBar.datetime_to_ls_format`.  The source compares
`date_time.year` with `datetime.now().year`; the current clock year is
the explicit `nowYear` argument, the function's only environmental input. -/
def InfoBar.datetime_to_ls_format (nowYear : Nat) (date_time : PyDateTime) : String :=
  if date_time.year = nowYear then strftime date_time "%d %b %H:%M".data
  else strftime date_time "%d %b %Y".data

/-- The fields of `os.stat_result` the info bar reads.  The modification
time is the raw numeric POSIX timestamp; converting it to a datetime is
a separate, fallible step (`datetime.fromtimestamp`). -/
structure StatResult where
  st_uid : Nat
  st_gid : Nat
  st_mode : Nat
  st_size : Nat
  st_mtime : Int
deriving DecidableEq, Repr

/-- The process environment `InfoBar.compose` consults: `Path.stat`
(failure carried as `Except String`), the user and group databases
(`pwd.getpwuid` / `grp.getgrgid`, where `none` models the `KeyError`
raised for a uid/gid absent from the database, e.g. a deleted user),
`datetime.fromtimestamp` (where `none` models the `OverflowError` /
`OSError` raised for an out-of-range timestamp), the pure
`stat.filemode` and `rich.filesize.decimal` formatters, `Path.is_dir`,
and the current clock year. -/
structure SysEnv where
  stat : String → Except String StatResult
  pw_name : Nat → Option String
  gr_name : Nat → Option String
  fromtimestamp : Int → Option PyDateTime
  filemode : Nat → String
  filesizeDecimal : Nat → String
  isDir : String → Bool
  nowYear : Nat

/-- A label yielded by `compose`: its text, its CSS class, and its
optional tooltip. -/
structure Label where
  text : String
  cls : String
  tooltip : Option String
deriving DecidableEq, Repr

/-- Model of `InfoBar.compose`.  The source's `try` guards *only*
`self.path.stat()`: a failing `stat` is caught and yields the single
error label.  The `else` block then evaluates
`pwd.getpwuid(stat.st_uid).pw_name`, `grp.getgrgid(stat.st_gid).gr_name`
and `datetime.fromtimestamp(stat.st_mtime)` *outside* the handler — in
that order — so a `KeyError` from an unmapped uid/gid, or a range error
from `fromtimestamp`, escapes `compose`; here that is the `.error`
result.  Otherwise compose yields the mode / user / group /
modified-time labels, plus a file-size label (with byte-count tooltip)
when the path is not a directory. -/
def InfoBar.compose (env : SysEnv) (path : String) : Except String (List Label) :=
  match env.stat path with
  | .error _ => .ok [⟨"failed to get file info", "error", none⟩]
  | .ok stat =>
    match env.pw_name stat.st_uid with
    | none => .error "KeyError: getpwuid"
    | some user_name =>
      match env.gr_name stat.st_gid with
      | none => .error "KeyError: getgrgid"
      | some group_name =>
        match env.fromtimestamp stat.st_mtime with
        | none => .error "fromtimestamp: out of range"
        | some modified_time =>
          .ok ([⟨env.filemode stat.st_mode, "mode", none⟩,
                ⟨user_name, "user-name", none⟩,
                ⟨group_name, "group-name", none⟩,
                ⟨InfoBar.datetime_to_ls_format env.nowYear modified_time,
                 "modified-time", none⟩]
               ++ (if env.isDir path then []
                   else [⟨env.filesizeDecimal stat.st_size, "file-size",
                          some (toString stat.st_size ++ " bytes")⟩]))

/-! ## `PreviewWindow` (tree.py lines 326–411)

`update_syntax` is a textual worker declared `@work(exclusive=True)`:
starting it cancels any still-running worker of the same group, and a
cancelled worker's coroutine receives `CancelledError` at its suspension
point (`await asyncio.to_thread(read_lines)`), so the code after the
read never runs for a job that was cancelled while its read was pending.
The embedding makes the job pool explicit: `updateSyntax` (the name
`update_syntax` carried into Lean) starts a job after cancelling the
outstanding ones, and `finishRead` delivers one job's read completion,
running the remainder of the worker body. -/

/-- One preview worker: its generation (creation order), target path,
and whether a newer request has cancelled it. -/
structure PreviewJob where
  gen : Nat
  path : String
  cancelled : Bool
deriving DecidableEq, Repr

/-- The preview widget's externally visible and scheduling state:
`content` is the `#content` static's value, `unavailable` the
`-preview-unavailable` CSS class, `active` the not-yet-finished workers. -/
structure PreviewState where
  nextGen : Nat
  active : List PreviewJob
  content : String
  unavailable : Bool
deriving DecidableEq, Repr

/-- The preview state as first composed: empty static, no class, no jobs. -/
def PreviewState.init : PreviewState := ⟨0, [], "", false⟩

/-- The externally visible part of the preview state. -/
def visible (s : PreviewState) : String × Bool := (s.content, s.unavailable)

/-- Mark every job cancelled, as starting an exclusive worker does to
the outstanding workers of its group. -/
def cancelAll (jobs : List PreviewJob) : List PreviewJob :=
  jobs.map (fun j => { j with cancelled := true })

/-- Model of starting `PreviewWindow.update_syntax path`: cancel the
outstanding workers, then run the body up to its first suspension point.
If `path.is_file()` is false the body returns at once (the source has no
`else` branch), so no job remains pending; otherwise the worker suspends
in `await asyncio.to_thread(read_lines)` and joins the active pool. -/
def PreviewWindow.updateSyntax (fs : FS) (s : PreviewState) (path : String) : PreviewState :=
  let jobs := cancelAll s.active
  if fs.isFile path then
    { s with active := jobs ++ [⟨s.nextGen, path, false⟩], nextGen := s.nextGen + 1 }
  else
    { s with active := jobs, nextGen := s.nextGen + 1 }

/-- Model of the read of job `g` completing: a job cancelled while
suspended never resumes its body (`CancelledError`); a live job runs the
rest of `update_syntax` — failed read shows the "Preview not available"
placeholder, a further `worker.is_cancelled` check, a `Syntax`
constructor that may raise, and finally the content update. -/
def finishRead (fs : FS) (g : Nat) (s : PreviewState) : PreviewState :=
  match s.active.find? (fun j => j.gen == g) with
  | none => s
  | some j =>
    let s' : PreviewState := { s with active := s.active.filter (fun j2 => j2.gen != g) }
    if j.cancelled then s'
    else
      match fs.readLines j.path with
      | none => { s' with content := "Preview not available", unavailable := true }
      | some code =>
        if j.cancelled then s'
        else
          match fs.render j.path code with
          | none => s'
          | some rendered => { s' with content := rendered, unavailable := false }

/-! ## `PathNavigator` (tree.py lines 414–526) -/

/-- A `notify` call: message, title, severity. -/
structure Notification where
  message : String
  title : String
  severity : String
deriving DecidableEq, Repr

/-- The navigator state the `NewPath` handler touches: the current root
(`self.path`), the paths pushed to the tree and the path display, and
the emitted notifications. -/
structure NavState where
  root : String
  treePath : String
  displayPath : String
  notifications : List Notification
deriving DecidableEq, Repr

/-- Model of `PathNavigator.on_new_path`: a non-directory candidate is
rejected with an error notification whose text interpolates `self.path`
— the *current root*, exactly as the f-string in the source does — while
a directory candidate becomes the new root and is pushed to the tree and
the path display. -/
def PathNavigator.on_new_path (fs : FS) (s : NavState) (path : String) : NavState :=
  if !(fs.isDir path) then
    { s with notifications := s.notifications ++
        [⟨"'" ++ s.root ++ "' is not a directory", "Change Directory", "error"⟩] }
  else
    { s with root := path, treePath := path, displayPath := path }

/-- The directory-tree widget state `action_reload` touches: how many
whole-tree reloads ran and which node paths were re-fetched.  The tree
performs its own filesystem listing; it never consults `ListDirCache`. -/
structure TreeModel where
  reloadedAll : Nat
  reloadedNodes : List String
deriving DecidableEq, Repr

/-- The full widget state reachable from `action_reload`: the
suggester's listing cache, the tree widget, the cursor's parent node
path (`tree.cursor_node.parent...path` when a cursor is set), and the
notifications. -/
structure NavFull where
  cache : CacheState
  tree : TreeModel
  cursorParent : Option String
  notifications : List Notification
deriving DecidableEq, Repr

/-- Model of `PathNavigator.action_reload`: reload the whole tree (no
cursor) or the cursor's parent node, and notify.  The body mirrors the
source, which manipulates only the `DirectoryTree` widget — the
`ListDirCache` held by any `DirectorySuggester` is never touched. -/
def PathNavigator.action_reload (s : NavFull) : NavFull :=
  match s.cursorParent with
  | none =>
    { s with tree := { s.tree with reloadedAll := s.tree.reloadedAll + 1 },
             notifications := s.notifications ++
               [⟨"Reloaded directory contents", "Directory", "information"⟩] }
  | some p =>
    { s with tree := { s.tree with reloadedNodes := s.tree.reloadedNodes ++ [p] },
             notifications := s.notifications ++
               [⟨"Reloaded '" ++ p ++ "'", "Reload", "information"⟩] }

/-- A filesystem whose working directory holds three sibling directories
`abcx`, `abcde` and `ab`, for evaluation checks.  The typed value `AB`
does not itself exist, so the suggester lists the parent directory and
matches the three children case-insensitively. -/
def fsAB : FS where
  children := fun p => if p = "." then .ok ["abcx", "abcde", "ab"] else .error .notFound
  isDir := fun p => p = "abcx" || p = "abcde" || p = "ab"
  isFile := fun _ => false
  readLines := fun _ => none
  render := fun _ _ => none
  home := "/home/u"

example :
    (DirectorySuggester.get_suggestion fsAB CacheState.init "AB").1 = .ok (some "ab/") := by
  decide
example :
    (ListDirCache.listdir fsAB CacheState.init "." 100).2.ioCount = 1 := by decide
example :
    InfoBar.datetime_to_ls_format 2026 ⟨2026, 10, 12, 9, 5⟩ = "12 Oct 09:05" := by
  decide

/-! ## Sorting lemmas for the suggester

`sortByLen` is the embedded `possible_paths.sort(key=str.__len__)`; only
its first element is observed, and `minFirst` names that element
directly: the first-occurring string of minimal length. -/

/-- The first-occurring minimum-length string of a list, if any. -/
def minFirst : List String → Option String
  | [] => none
  | x :: xs =>
    match minFirst xs with
    | none => some x
    | some m => some (if m.length < x.length then m else x)

/-- `minFirst` is `none` only on the empty list. -/
theorem minFirst_eq_none {l : List String} : minFirst l = none ↔ l = [] := by
  cases l with
  | nil => simp [minFirst]
  | cons x xs => cases h : minFirst xs <;> simp [minFirst, h]

/-- Inserting into a sorted list never produces the empty list. -/
theorem insertByLen_ne_nil (x : String) (s : List String) : insertByLen x s ≠ [] := by
  cases s with
  | nil => simp [insertByLen]
  | cons y ys => by_cases h : y.length < x.length <;> simp [insertByLen, h]

/-- The head after a stable insertion is the strictly shorter of the
incoming element and the previous head (ties keep the incoming element,
which occurs earlier in the original list). -/
theorem insertByLen_head (x y : String) (ys : List String) :
    (insertByLen x (y :: ys)).head? = some (if y.length < x.length then y else x) := by
  by_cases h : y.length < x.length <;> simp [insertByLen, h]

/-- The head of the stable length-sort is the first-occurring
minimum-length element. -/
theorem sortByLen_head? (l : List String) : (sortByLen l).head? = minFirst l := by
  induction l with
  | nil => rfl
  | cons x xs ih =>
    show (insertByLen x (sortByLen xs)).head? = _
    cases hs : sortByLen xs with
    | nil =>
      rw [hs] at ih
      simp only [List.head?_nil] at ih
      simp [insertByLen, minFirst, ← ih]
    | cons y ys =>
      rw [hs] at ih
      simp only [List.head?_cons] at ih
      rw [insertByLen_head]
      simp only [minFirst, ← ih]

/-- What `minFirst l = some s` means: `s` occurs at some index `i`, it
has minimal length, and every earlier element is strictly longer. -/
theorem minFirst_spec {l : List String} {s : String} (h : minFirst l = some s) :
    ∃ i, l.get? i = some s ∧ (∀ t ∈ l, s.length ≤ t.length) ∧
      ∀ j t, j < i → l.get? j = some t → s.length < t.length := by
  induction l generalizing s with
  | nil => simp [minFirst] at h
  | cons x xs ih =>
    cases hm : minFirst xs with
    | none =>
      have hxs : xs = [] := minFirst_eq_none.mp hm
      subst hxs
      simp only [minFirst] at h
      obtain rfl : x = s := by simpa using h
      exact ⟨0, rfl, by simp, fun j t hj => absurd hj (Nat.not_lt_zero j)⟩
    | some m =>
      simp only [minFirst, hm] at h
      obtain ⟨i, hi, hmin, hfirst⟩ := ih hm
      by_cases hlt : m.length < x.length
      · rw [if_pos hlt] at h
        obtain rfl : m = s := by simpa using h
        refine ⟨i + 1, by simpa using hi, ?_, ?_⟩
        · intro t ht
          rcases List.mem_cons.mp ht with rfl | ht
          · exact Nat.le_of_lt hlt
          · exact hmin t ht
        · intro j t hj hjt
          cases j with
          | zero =>
            obtain rfl : x = t := by simpa using hjt
            exact hlt
          | succ j' =>
            exact hfirst j' t (Nat.lt_of_succ_lt_succ hj) (by simpa using hjt)
      · rw [if_neg hlt] at h
        obtain rfl : x = s := by simpa using h
        refine ⟨0, rfl, ?_, fun j t hj => absurd hj (Nat.not_lt_zero j)⟩
        intro t ht
        rcases List.mem_cons.mp ht with rfl | ht
        · exact Nat.le_refl _
        · exact Nat.le_trans (Nat.le_of_not_lt hlt) (hmin t ht)

/-! ## Claim C4: shortest-first suggestion -/

/-- C4: whenever the candidate set is non-empty (and the typed value
does not use the home token, so no rewrite applies — the rewrite is
claim C9's subject), the suggester returns exactly the first-occurring
shortest candidate string: it occurs in the candidate list, has minimal
length, every earlier candidate is strictly longer, and it is a child
path with a trailing separator appended. -/
theorem suggestion_shortest_first (fs : FS) (st : CacheState) (value : String)
    (children : List String)
    (h1 : (ListDirCache.listdir fs st (DirectorySuggester.listTarget fs value) 100).1
        = .ok children)
    (h2 : DirectorySuggester.possiblePaths fs value children ≠ [])
    (h3 : containsChar value '~' = false) :
    ∃ s i,
      (DirectorySuggester.get_suggestion fs st value).1 = .ok (some s)
      ∧ (DirectorySuggester.possiblePaths fs value children).get? i = some s
      ∧ (∀ t ∈ DirectorySuggester.possiblePaths fs value children, s.length ≤ t.length)
      ∧ (∀ j t, j < i →
          (DirectorySuggester.possiblePaths fs value children).get? j = some t →
          s.length < t.length)
      ∧ ∃ c ∈ children, s = c ++ "/" := by
  have hne : (DirectorySuggester.possiblePaths fs value children).isEmpty = false := by
    cases hl : DirectorySuggester.possiblePaths fs value children with
    | nil => exact absurd hl h2
    | cons a as => rfl
  obtain ⟨s, hs⟩ :
      ∃ s, minFirst (DirectorySuggester.possiblePaths fs value children) = some s := by
    cases hm : minFirst (DirectorySuggester.possiblePaths fs value children) with
    | none => exact absurd (minFirst_eq_none.mp hm) h2
    | some s => exact ⟨s, rfl⟩
  obtain ⟨i, hi, hmin, hfirst⟩ := minFirst_spec hs
  refine ⟨s, i, ?_, hi, hmin, hfirst, ?_⟩
  · have hval : (DirectorySuggester.get_suggestion fs st value).1
        = .ok (some ((sortByLen
            (DirectorySuggester.possiblePaths fs value children)).headD "")) := by
      simp only [DirectorySuggester.get_suggestion]
      rw [h1]
      simp [hne, h3]
    rw [hval, List.headD_eq_head?_getD, sortByLen_head?, hs]
    rfl
  · have hsmem : s ∈ DirectorySuggester.possiblePaths fs value children :=
      List.get?_mem hi
    simp only [DirectorySuggester.possiblePaths, List.mem_map] at hsmem
    obtain ⟨c, hc, rfl⟩ := hsmem
    exact ⟨c, (List.mem_filter.mp hc).1, rfl⟩

/-- C4 witness: `suggestion_shortest_first` at the claim's own example —
children `abcx`, `abcde`, `ab` and typed prefix `AB` (case-insensitive
match, and `AB` itself is not an existing directory) — together with the
claim's expected concrete output `"ab/"`. -/
theorem suggestion_shortest_first_witness :
    (DirectorySuggester.get_suggestion fsAB CacheState.init "AB").1 = .ok (some "ab/")
    ∧ ∃ s i,
      (DirectorySuggester.get_suggestion fsAB CacheState.init "AB").1 = .ok (some s)
      ∧ (DirectorySuggester.possiblePaths fsAB "AB" ["abcx", "abcde", "ab"]).get? i = some s
      ∧ (∀ t ∈ DirectorySuggester.possiblePaths fsAB "AB" ["abcx", "abcde", "ab"],
          s.length ≤ t.length)
      ∧ (∀ j t, j < i →
          (DirectorySuggester.possiblePaths fsAB "AB" ["abcx", "abcde", "ab"]).get? j = some t →
          s.length < t.length)
      ∧ ∃ c ∈ ["abcx", "abcde", "ab"], s = c ++ "/" :=
  ⟨by decide,
   suggestion_shortest_first fsAB CacheState.init "AB" ["abcx", "abcde", "ab"]
     (by decide) (by decide) (by decide)⟩

/-! ## Claim C6: suggestion error outcomes -/

/-- C6 amended: the suggester returns `None` as a normal value when the
listing raises `FileNotFoundError` (missing parent) or when no candidate
matches; but an unreadable parent that raises any *other* error — e.g. a
permission-denied directory — propagates as an exception, because the
source catches only `FileNotFoundError`. -/
theorem suggestion_error_outcomes (fs : FS) (st : CacheState) (value : String) :
    ((ListDirCache.listdir fs st (DirectorySuggester.listTarget fs value) 100).1
        = .error .notFound →
      (DirectorySuggester.get_suggestion fs st value).1 = .ok none)
    ∧ (∀ children,
        (ListDirCache.listdir fs st (DirectorySuggester.listTarget fs value) 100).1
          = .ok children →
        DirectorySuggester.possiblePaths fs value children = [] →
        (DirectorySuggester.get_suggestion fs st value).1 = .ok none)
    ∧ ((ListDirCache.listdir fs st (DirectorySuggester.listTarget fs value) 100).1
        = .error .permissionDenied →
      (DirectorySuggester.get_suggestion fs st value).1 = .error .permissionDenied) := by
  refine ⟨?_, ?_, ?_⟩
  · intro h
    simp only [DirectorySuggester.get_suggestion]
    rw [h]
  · intro children h hposs
    simp only [DirectorySuggester.get_suggestion]
    rw [h]
    simp [hposs]
  · intro h
    simp only [DirectorySuggester.get_suggestion]
    rw [h]

/-- A filesystem whose directories are all unreadable
(`PermissionError` on `iterdir`). -/
def fs6 : FS where
  children := fun _ => .error .permissionDenied
  isDir := fun _ => false
  isFile := fun _ => false
  readLines := fun _ => none
  render := fun _ _ => none
  home := "/h"

/-- C6 counterexample: with a permission-denied parent — a parent that
"cannot be listed" in the claim's words — the suggester does *not*
return `None`; the `PermissionError` escapes (only `FileNotFoundError`
is caught in the source). -/
theorem suggestion_permission_counterexample :
    (DirectorySuggester.get_suggestion fs6 CacheState.init "/locked/a").1
      = .error .permissionDenied
    ∧ (DirectorySuggester.get_suggestion fs6 CacheState.init "/locked/a").1
      ≠ .ok none := by
  decide

/-- C6 amended witness: `suggestion_error_outcomes` applied at concrete
inputs — a missing parent yields `.ok none`, no matching candidate
yields `.ok none`, and an unreadable parent propagates the error. -/
theorem suggestion_error_outcomes_witness :
    (DirectorySuggester.get_suggestion fsAB CacheState.init "/nope/x").1 = .ok none
    ∧ (DirectorySuggester.get_suggestion fsAB CacheState.init "zz").1 = .ok none
    ∧ (DirectorySuggester.get_suggestion fs6 CacheState.init "/locked/b").1
      = .error .permissionDenied :=
  ⟨(suggestion_error_outcomes fsAB CacheState.init "/nope/x").1 (by decide),
   (suggestion_error_outcomes fsAB CacheState.init "zz").2.1
     ["abcx", "abcde", "ab"] (by decide) (by decide),
   (suggestion_error_outcomes fs6 CacheState.init "/locked/b").2.2 (by decide)⟩

/-! ## Claims C2 and C3: the listing cache -/

/-- The cache invariant: every stored entry equals the size-truncated
listing the filesystem yields for its key.  The initial (empty) cache
satisfies it, and `listdir` preserves it. -/
def CacheConsistent (fs : FS) (st : CacheState) : Prop :=
  ∀ kv ∈ st.cache, (fs.children kv.1.1).map (fun cs => cs.take kv.1.2) = .ok kv.2

/-- The empty cache is consistent with any filesystem. -/
theorem cacheConsistent_init (fs : FS) : CacheConsistent fs CacheState.init := by
  intro kv hkv
  simp [CacheState.init] at hkv

/-- C2 amended: every `listdir` call returns the canonical listing for
its key — so all calls with an identical `(path, limit)` key return
equal sequences — and a call performs filesystem I/O exactly when its
key is *not* in the cache.  The first call for a key always misses, but
a later identical call is free of I/O only while the key is still
cached; the capacity-100 LRU can evict it in between. -/
theorem listdir_cache_coherence (fs : FS) (st : CacheState) (p : String) (n : Nat)
    (hst : CacheConsistent fs st) :
    (ListDirCache.listdir fs st p n).1 = (fs.children p).map (fun cs => cs.take n)
    ∧ CacheConsistent fs (ListDirCache.listdir fs st p n).2
    ∧ ((∃ v, ((p, n), v) ∈ st.cache) →
        (ListDirCache.listdir fs st p n).2.ioCount = st.ioCount)
    ∧ ((¬ ∃ v, ((p, n), v) ∈ st.cache) →
        (ListDirCache.listdir fs st p n).2.ioCount = st.ioCount + 1) := by
  cases hfind : st.cache.find? (fun kv => kv.1 == (p, n)) with
  | some kv =>
    have hmem := List.mem_of_find?_eq_some hfind
    have hkey : kv.1 = (p, n) := by simpa using List.find?_some hfind
    have hcons := hst kv hmem
    rw [hkey] at hcons
    refine ⟨?_, ?_, ?_, ?_⟩
    · simp only [ListDirCache.listdir, hfind]
      exact hcons.symm
    · simp only [ListDirCache.listdir, hfind]
      intro kv2 hkv2
      rcases List.mem_cons.mp hkv2 with rfl | h
      · simpa using hcons
      · exact hst kv2 (List.mem_filter.mp h).1
    · intro _
      simp only [ListDirCache.listdir, hfind]
    · intro hno
      refine absurd ⟨kv.2, ?_⟩ hno
      have hkv : ((p, n), kv.2) = kv := by rw [← hkey]
      rw [hkv]
      exact hmem
  | none =>
    have hnone := List.find?_eq_none.mp hfind
    have hnomem : ¬ ∃ v, ((p, n), v) ∈ st.cache := by
      rintro ⟨v, hv⟩
      exact hnone ((p, n), v) hv (by simp)
    cases hch : fs.children p with
    | error e =>
      refine ⟨?_, ?_, fun hv => absurd hv hnomem, ?_⟩
      · simp [ListDirCache.listdir, hfind, hch, Except.map]
      · simp only [ListDirCache.listdir, hfind, hch]
        intro kv2 hkv2
        exact hst kv2 hkv2
      · intro _
        simp only [ListDirCache.listdir, hfind, hch]
    | ok cs =>
      refine ⟨?_, ?_, fun hv => absurd hv hnomem, ?_⟩
      · simp [ListDirCache.listdir, hfind, hch, Except.map]
      · simp only [ListDirCache.listdir, hfind, hch]
        intro kv2 hkv2
        have hkv2' := List.mem_of_mem_take hkv2
        rcases List.mem_cons.mp hkv2' with rfl | h
        · simp [hch, Except.map]
        · exact hst kv2 (List.mem_filter.mp h).1
      · intro _
        simp only [ListDirCache.listdir, hfind, hch]

/-- A filesystem in which every directory holds a single child, for the
cache claims. -/
def fsMany : FS where
  children := fun p => .ok [p ++ "/x"]
  isDir := fun _ => true
  isFile := fun _ => false
  readLines := fun _ => none
  render := fun _ _ => none
  home := "/home/u"

/-- The cache state after `listdir("A", 1)` followed by `listdir(k, 1)`
for one hundred distinct other keys `"0"`, ..., `"99"`. -/
def c2Mid : CacheState :=
  (List.range 100).foldl
    (fun st i => (ListDirCache.listdir fsMany st (toString i) 1).2)
    (ListDirCache.listdir fsMany CacheState.init "A" 1).2

set_option maxRecDepth 10000 in
/-- C2 counterexample: in the `reload`-free call sequence
`list("A",1); list("0",1); ...; list("99",1); list("A",1)` the two calls
with the identical key `("A", 1)` both perform filesystem I/O — the
one-hundred-and-first distinct key evicted `("A", 1)` from the
capacity-100 LRU — refuting "only the first such call performs
filesystem I/O".  The repeated call still returns the equal sequence. -/
theorem listdir_eviction_counterexample :
    c2Mid.ioCount = 101
    ∧ (ListDirCache.listdir fsMany c2Mid "A" 1).2.ioCount = 102
    ∧ (ListDirCache.listdir fsMany c2Mid "A" 1).1 = .ok ["A/x"]
    ∧ (ListDirCache.listdir fsMany CacheState.init "A" 1).1 = .ok ["A/x"] := by
  decide

/-- C2 amended witness: `listdir_cache_coherence` applied at the empty
cache (miss: canonical result, one I/O) and at the resulting one-entry
cache (hit: no I/O). -/
theorem listdir_cache_coherence_witness :
    (ListDirCache.listdir fsMany CacheState.init "A" 1).1
      = (fsMany.children "A").map (fun cs => cs.take 1)
    ∧ (ListDirCache.listdir fsMany CacheState.init "A" 1).2.ioCount = 0 + 1
    ∧ (ListDirCache.listdir fsMany
        (ListDirCache.listdir fsMany CacheState.init "A" 1).2 "A" 1).2.ioCount
      = (ListDirCache.listdir fsMany CacheState.init "A" 1).2.ioCount :=
  ⟨(listdir_cache_coherence fsMany CacheState.init "A" 1 (cacheConsistent_init fsMany)).1,
   (listdir_cache_coherence fsMany CacheState.init "A" 1
      (cacheConsistent_init fsMany)).2.2.2 (by rintro ⟨v, hv⟩; simp [CacheState.init] at hv),
   (listdir_cache_coherence fsMany (ListDirCache.listdir fsMany CacheState.init "A" 1).2
      "A" 1 (by unfold CacheConsistent; decide)).2.2.1 ⟨["A/x"], by decide⟩⟩

/-- C3 amended: the only reload operation in the program,
`PathNavigator.action_reload`, re-fetches the directory-tree widget's
listings and leaves the `ListDirCache` untouched: the cache after the
action is the very same state, and a `listdir` call whose key is cached
is still served from the cache with no filesystem I/O.  The
`ListDirCache` class itself has no invalidation operation. -/
theorem reload_leaves_cache (fs : FS) (s : NavFull) (p : String) (n : Nat) (v : List String)
    (hmem : ((p, n), v) ∈ s.cache.cache) :
    (PathNavigator.action_reload s).cache = s.cache
    ∧ (ListDirCache.listdir fs (PathNavigator.action_reload s).cache p n).2.ioCount
        = s.cache.ioCount := by
  have hcache : (PathNavigator.action_reload s).cache = s.cache := by
    unfold PathNavigator.action_reload
    cases s.cursorParent <;> rfl
  refine ⟨hcache, ?_⟩
  rw [hcache]
  have hsome : (s.cache.cache.find? (fun kv => kv.1 == (p, n))).isSome := by
    rw [List.find?_isSome]
    exact ⟨((p, n), v), hmem, by simp⟩
  cases hfind : s.cache.cache.find? (fun kv => kv.1 == (p, n)) with
  | none => rw [hfind] at hsome; simp at hsome
  | some kv => simp only [ListDirCache.listdir, hfind]

/-- The navigator state after one cached listing of `("A", 1)`. -/
def nav0 : NavFull :=
  ⟨(ListDirCache.listdir fsMany CacheState.init "A" 1).2, ⟨0, []⟩, none, []⟩

/-- C3 counterexample: `list("A",1)` (one I/O), then the program's
reload action, then `list("A",1)` again: the reload leaves the listing
cache intact, so the second call is served from the cache and performs
*no* fresh I/O — refuting "a subsequent `list(path, n)` always performs
fresh I/O" (and with it the claimed cache-key removal). -/
theorem reload_cache_counterexample :
    nav0.cache.ioCount = 1
    ∧ (PathNavigator.action_reload nav0).cache = nav0.cache
    ∧ (ListDirCache.listdir fsMany (PathNavigator.action_reload nav0).cache "A" 1).2.ioCount
      = 1
    ∧ (PathNavigator.action_reload nav0).tree.reloadedAll = 1 := by
  decide

/-- C3 amended witness: `reload_leaves_cache` applied at `nav0`, whose
cache holds the key `("A", 1)`. -/
theorem reload_leaves_cache_witness :
    (PathNavigator.action_reload nav0).cache = nav0.cache
    ∧ (ListDirCache.listdir fsMany (PathNavigator.action_reload nav0).cache "A" 1).2.ioCount
      = nav0.cache.ioCount :=
  reload_leaves_cache fsMany nav0 "A" 1 ["A/x"] (by decide)

/-! ## Claim C9: the home-token rewrite -/

/-- If the needle does not occur, `str.replace(old, new, 1)` returns the
input unchanged. -/
theorem replaceOnceList_of_not_contains {old new l : List Char}
    (h : containsSubList old l = false) : replaceOnceList old new l = l := by
  induction l with
  | nil =>
    simp only [containsSubList] at h
    simp [replaceOnceList, h]
  | cons c rest ih =>
    simp only [containsSubList, Bool.or_eq_false_iff] at h
    obtain ⟨h1, h2⟩ := h
    simp [replaceOnceList, h1, ih h2]

/-- If the needle occurs, `str.replace(old, new, 1)` replaces exactly
its first (leftmost) occurrence, once: the input splits as
`p ++ old ++ q` with `p` shortest possible, and the result is
`p ++ new ++ q` with the tail `q` carried over unscanned. -/
theorem replaceOnceList_spec {old l : List Char} (new : List Char)
    (h : containsSubList old l = true) :
    ∃ p q, l = p ++ old ++ q ∧ replaceOnceList old new l = p ++ new ++ q
      ∧ ∀ p2 q2, l = p2 ++ old ++ q2 → p.length ≤ p2.length := by
  induction l with
  | nil =>
    simp only [containsSubList] at h
    have hold : old = [] := by simpa [List.isEmpty_iff] using h
    subst hold
    exact ⟨[], [], rfl, by simp [replaceOnceList], fun p2 q2 _ => Nat.zero_le _⟩
  | cons c rest ih =>
    by_cases hp : old.isPrefixOf (c :: rest) = true
    · obtain ⟨t, ht⟩ := List.isPrefixOf_iff_prefix.mp hp
      refine ⟨[], t, by simp [← ht], ?_, fun p2 q2 _ => Nat.zero_le _⟩
      simp only [replaceOnceList, hp, if_pos]
      rw [← ht, List.drop_left]
      simp
    · have hp' : old.isPrefixOf (c :: rest) = false := Bool.eq_false_iff.mpr hp
      have hc : containsSubList old rest = true := by
        simpa [containsSubList, hp'] using h
      obtain ⟨p, q, hl, hr, hmin⟩ := ih hc
      refine ⟨c :: p, q, by simp [hl], ?_, ?_⟩
      · simp [replaceOnceList, hp', hr]
      · rintro p2 q2 he
        cases p2 with
        | nil =>
          exfalso
          simp only [List.nil_append] at he
          exact hp (List.isPrefixOf_iff_prefix.mpr ⟨q2, (by simpa using he.symm)⟩)
        | cons c2 p2' =>
          simp only [List.cons_append, List.cons.injEq] at he
          have he' : rest = p2' ++ old ++ q2 := he.2
          simpa using Nat.succ_le_succ (hmin p2' q2 he')

/-- C9 amended: the home rewrite fires exactly when the typed value
contains `~` *anywhere* (not only in home-token form) and the home
directory string occurs *anywhere* in the suggestion (not only as a
prefix): in that case the first occurrence of the home string is
replaced by `~`, once, non-recursively; in every other case the chosen
suggestion is returned unmodified. -/
theorem home_rewrite_characterization (fs : FS) (st : CacheState) (value : String)
    (children : List String)
    (h1 : (ListDirCache.listdir fs st (DirectorySuggester.listTarget fs value) 100).1
        = .ok children)
    (h2 : DirectorySuggester.possiblePaths fs value children ≠ []) :
    ∃ best, minFirst (DirectorySuggester.possiblePaths fs value children) = some best
    ∧ (containsChar value '~' = false →
        (DirectorySuggester.get_suggestion fs st value).1 = .ok (some best))
    ∧ (containsChar value '~' = true → strContainsSub best fs.home = false →
        (DirectorySuggester.get_suggestion fs st value).1 = .ok (some best))
    ∧ (containsChar value '~' = true → strContainsSub best fs.home = true →
        ∃ p q : List Char,
          best.data = p ++ fs.home.data ++ q
          ∧ (DirectorySuggester.get_suggestion fs st value).1 = .ok (some ⟨p ++ '~' :: q⟩)
          ∧ ∀ p2 q2, best.data = p2 ++ fs.home.data ++ q2 → p.length ≤ p2.length) := by
  have hne : (DirectorySuggester.possiblePaths fs value children).isEmpty = false := by
    cases hl : DirectorySuggester.possiblePaths fs value children with
    | nil => exact absurd hl h2
    | cons a as => rfl
  obtain ⟨best, hbest⟩ :
      ∃ b, minFirst (DirectorySuggester.possiblePaths fs value children) = some b := by
    cases hm : minFirst (DirectorySuggester.possiblePaths fs value children) with
    | none => exact absurd (minFirst_eq_none.mp hm) h2
    | some b => exact ⟨b, rfl⟩
  have hvalT : containsChar value '~' = true →
      (DirectorySuggester.get_suggestion fs st value).1
        = .ok (some (replaceOnce best fs.home "~")) := by
    intro htilde
    simp only [DirectorySuggester.get_suggestion]
    rw [h1]
    simp [hne, htilde, List.headD_eq_head?_getD, sortByLen_head?, hbest]
  refine ⟨best, hbest, ?_, ?_, ?_⟩
  · intro htilde
    simp only [DirectorySuggester.get_suggestion]
    rw [h1]
    simp [hne, htilde, List.headD_eq_head?_getD, sortByLen_head?, hbest]
  · intro htilde hnc
    rw [hvalT htilde]
    have : replaceOnce best fs.home "~" = best := by
      show String.mk (replaceOnceList fs.home.data "~".data best.data) = best
      rw [replaceOnceList_of_not_contains hnc]
    rw [this]
  · intro htilde hcc
    obtain ⟨p, q, hsplit, hrepl, hmin⟩ := replaceOnceList_spec "~".data hcc
    refine ⟨p, q, hsplit, ?_, hmin⟩
    rw [hvalT htilde]
    have : replaceOnce best fs.home "~" = ⟨p ++ '~' :: q⟩ := by
      show String.mk (replaceOnceList fs.home.data "~".data best.data) = _
      rw [hrepl]
      simp
    rw [this]

/-- A filesystem whose home directory is `/h` and where `/h` holds the
single directory `~ab` (a legal file name), so a typed value can contain
`~` without being in home-token form. -/
def fs9 : FS where
  children := fun p => if p = "/h" then .ok ["/h/~ab"] else .error .notFound
  isDir := fun p => p = "/h" || p = "/h/~ab"
  isFile := fun _ => false
  readLines := fun _ => none
  render := fun _ _ => none
  home := "/h"

/-- C9 counterexample: the typed value `/h/~a` does *not* use the
home-token form (it does not start with `~`), yet because it contains a
`~` character and the home string `/h` occurs in the chosen suggestion
`/h/~ab/`, the source rewrites the suggestion to `~/~ab/` instead of
returning it unmodified.  The rewrite condition is `"~" in value`, not
"the partial used the home-token form". -/
theorem home_rewrite_counterexample :
    startsWithStr "/h/~a" "~" = false
    ∧ (DirectorySuggester.get_suggestion fs9 CacheState.init "/h/~a").1
      = .ok (some "~/~ab/")
    ∧ (DirectorySuggester.get_suggestion fs9 CacheState.init "/h/~a").1
      ≠ .ok (some "/h/~ab/") := by
  decide

/-- C9 amended witness: `home_rewrite_characterization` applied at the
`fs9` scenario, landing in the rewrite branch. -/
theorem home_rewrite_characterization_witness :
    ∃ p q : List Char,
      ("/h/~ab/" : String).data = p ++ ("/h" : String).data ++ q
      ∧ (DirectorySuggester.get_suggestion fs9 CacheState.init "/h/~a").1
        = .ok (some ⟨p ++ '~' :: q⟩)
      ∧ ∀ p2 q2, ("/h/~ab/" : String).data = p2 ++ ("/h" : String).data ++ q2 →
          p.length ≤ p2.length := by
  obtain ⟨best, hbest, _, _, h4⟩ :=
    home_rewrite_characterization fs9 CacheState.init "/h/~a" ["/h/~ab"]
      (by decide) (by decide)
  have hb : best = "/h/~ab/" := by
    have : minFirst (DirectorySuggester.possiblePaths fs9 "/h/~a" ["/h/~ab"])
        = some "/h/~ab/" := by decide
    rw [this] at hbest
    exact (Option.some.injEq _ _ ▸ hbest.symm :)
  subst hb
  exact h4 (by decide) (by decide)

/-! ## Claim C8: `datetime_to_ls_format` -/

/-- C8: the date formatter is a pure function of the modification time
and the current clock year (its only environmental input, made explicit
here): a time in the current calendar year renders as `"dd Mon HH:MM"`
and a time in any other year renders as `"dd Mon YYYY"`. -/
theorem datetime_ls_format_correct (nowYear : Nat) (dt : PyDateTime) :
    (dt.year = nowYear →
      InfoBar.datetime_to_ls_format nowYear dt =
        pad2 dt.day ++ " " ++ monthAbbr dt.month ++ " " ++ pad2 dt.hour ++ ":" ++ pad2 dt.minute)
    ∧ (dt.year ≠ nowYear →
      InfoBar.datetime_to_ls_format nowYear dt =
        pad2 dt.day ++ " " ++ monthAbbr dt.month ++ " " ++ toString dt.year) := by
  constructor
  · intro h
    unfold InfoBar.datetime_to_ls_format
    rw [if_pos h]
    show pad2 dt.day ++ (" " ++ (monthAbbr dt.month ++ (" " ++ (pad2 dt.hour ++
      (":" ++ (pad2 dt.minute ++ "")))))) = _
    simp [String.append_assoc, String.append_empty]
  · intro h
    unfold InfoBar.datetime_to_ls_format
    rw [if_neg h]
    show pad2 dt.day ++ (" " ++ (monthAbbr dt.month ++ (" " ++ (toString dt.year ++ "")))) = _
    simp [String.append_assoc, String.append_empty]

/-- C8 witness: the formatter evaluated in both branches at concrete
datetimes via `datetime_ls_format_correct`. -/
theorem datetime_ls_format_correct_witness :
    InfoBar.datetime_to_ls_format 2026 ⟨2026, 10, 12, 9, 5⟩ =
      pad2 12 ++ " " ++ monthAbbr 10 ++ " " ++ pad2 9 ++ ":" ++ pad2 5
    ∧ InfoBar.datetime_to_ls_format 2026 ⟨1999, 3, 7, 9, 5⟩ =
      pad2 7 ++ " " ++ monthAbbr 3 ++ " " ++ toString 1999 :=
  ⟨(datetime_ls_format_correct 2026 ⟨2026, 10, 12, 9, 5⟩).1 rfl,
   (datetime_ls_format_correct 2026 ⟨1999, 3, 7, 9, 5⟩).2 (by decide)⟩

/-! ## Claim C10: `InfoBar.compose` -/

/-- An environment with a file owned by uid 4242, which is absent from
the user database (a routine situation: a file owned by a deleted
user).  `stat` succeeds; `pwd.getpwuid(4242)` raises `KeyError`. -/
def envOrphan : SysEnv where
  stat := fun _ => .ok ⟨4242, 100, 33188, 512, 1760000000⟩
  pw_name := fun uid => if uid = 1000 then some "will" else none
  gr_name := fun gid => if gid = 100 then some "staff" else none
  fromtimestamp := fun t => if t = 1760000000 then some ⟨2025, 10, 9, 8, 53⟩ else none
  filemode := fun _ => "-rw-r--r--"
  filesizeDecimal := fun _ => "512 bytes"
  isDir := fun _ => false
  nowYear := 2026

/-- C10 counterexample: composing the info display is *not* total for
every path.  The `try` in the source guards only `self.path.stat()`;
here `stat` succeeds, so no placeholder is yielded, and the
`pwd.getpwuid` lookup in the unguarded `else` block raises `KeyError`
for the unmapped uid 4242 — `compose` propagates an exception and
yields no labels at all. -/
theorem infobar_compose_keyerror_counterexample :
    envOrphan.stat "/var/file" = .ok ⟨4242, 100, 33188, 512, 1760000000⟩
    ∧ InfoBar.compose envOrphan "/var/file" = .error "KeyError: getpwuid"
    ∧ ∀ ls, InfoBar.compose envOrphan "/var/file" ≠ .ok ls := by
  refine ⟨by decide, by decide, fun ls h => ?_⟩
  rw [show InfoBar.compose envOrphan "/var/file" = .error "KeyError: getpwuid"
    from by decide] at h
  exact Except.noConfusion h

/-- C10 amended: `compose` recovers only from the `stat` call.  A
failing `stat` yields exactly the single error placeholder label.  A
successful `stat` whose uid and gid are present in the user and group
databases and whose mtime converts yields the mode, user-name,
group-name and modified-time labels, plus a file-size label exactly
when the path is not a directory.  But an unmapped uid or gid
(`KeyError`) or an unconvertible mtime — all evaluated outside the
`try` — propagates as an exception out of `compose`. -/
theorem infobar_compose_cases (env : SysEnv) (path : String) :
    ((∃ e, env.stat path = .error e) →
      InfoBar.compose env path = .ok [⟨"failed to get file info", "error", none⟩])
    ∧ (∀ stat user_name group_name modified_time,
        env.stat path = .ok stat →
        env.pw_name stat.st_uid = some user_name →
        env.gr_name stat.st_gid = some group_name →
        env.fromtimestamp stat.st_mtime = some modified_time →
        InfoBar.compose env path = .ok
          ([⟨env.filemode stat.st_mode, "mode", none⟩,
            ⟨user_name, "user-name", none⟩,
            ⟨group_name, "group-name", none⟩,
            ⟨InfoBar.datetime_to_ls_format env.nowYear modified_time,
             "modified-time", none⟩]
           ++ (if env.isDir path then []
               else [⟨env.filesizeDecimal stat.st_size, "file-size",
                      some (toString stat.st_size ++ " bytes")⟩])))
    ∧ (∀ stat, env.stat path = .ok stat →
        (env.pw_name stat.st_uid = none ∨ env.gr_name stat.st_gid = none ∨
         env.fromtimestamp stat.st_mtime = none) →
        ∃ e, InfoBar.compose env path = .error e) := by
  refine ⟨?_, ?_, ?_⟩
  · rintro ⟨e, he⟩
    simp only [InfoBar.compose, he]
  · intro stat user_name group_name modified_time hs hu hg ht
    simp only [InfoBar.compose, hs, hu, hg, ht]
  · intro stat hs hdisj
    rcases hdisj with hu | hg | ht
    · exact ⟨"KeyError: getpwuid", by simp only [InfoBar.compose, hs, hu]⟩
    · cases hu : env.pw_name stat.st_uid with
      | none => exact ⟨"KeyError: getpwuid", by simp only [InfoBar.compose, hs, hu]⟩
      | some u =>
        exact ⟨"KeyError: getgrgid", by simp only [InfoBar.compose, hs, hu, hg]⟩
    · cases hu : env.pw_name stat.st_uid with
      | none => exact ⟨"KeyError: getpwuid", by simp only [InfoBar.compose, hs, hu]⟩
      | some u =>
        cases hg : env.gr_name stat.st_gid with
        | none => exact ⟨"KeyError: getgrgid", by simp only [InfoBar.compose, hs, hu, hg]⟩
        | some g =>
          exact ⟨"fromtimestamp: out of range",
            by simp only [InfoBar.compose, hs, hu, hg, ht]⟩

/-- An environment like `envOrphan` but whose paths are owned by the
mapped uid 1000 / gid 100, with one path whose `stat` fails. -/
def envOk : SysEnv where
  stat := fun p =>
    if p = "/gone" then .error "ENOENT" else .ok ⟨1000, 100, 33188, 2048, 1760000000⟩
  pw_name := fun uid => if uid = 1000 then some "will" else none
  gr_name := fun gid => if gid = 100 then some "staff" else none
  fromtimestamp := fun t => if t = 1760000000 then some ⟨2025, 10, 9, 8, 53⟩ else none
  filemode := fun _ => "-rw-r--r--"
  filesizeDecimal := fun _ => "2.0 kB"
  isDir := fun p => p = "/srv"
  nowYear := 2026

/-- C10 amended witness: `infobar_compose_cases` applied at concrete
environments — a failing `stat`, a fully-resolvable regular file, and
the orphaned-uid propagation case. -/
theorem infobar_compose_cases_witness :
    InfoBar.compose envOk "/gone" = .ok [⟨"failed to get file info", "error", none⟩]
    ∧ InfoBar.compose envOk "/data.txt" = .ok
        ([⟨"-rw-r--r--", "mode", none⟩,
          ⟨"will", "user-name", none⟩,
          ⟨"staff", "group-name", none⟩,
          ⟨InfoBar.datetime_to_ls_format 2026 ⟨2025, 10, 9, 8, 53⟩, "modified-time", none⟩]
         ++ [⟨"2.0 kB", "file-size", some (toString 2048 ++ " bytes")⟩])
    ∧ (∃ e, InfoBar.compose envOrphan "/var/file" = .error e) :=
  ⟨(infobar_compose_cases envOk "/gone").1 ⟨"ENOENT", by decide⟩,
   (infobar_compose_cases envOk "/data.txt").2.1 ⟨1000, 100, 33188, 2048, 1760000000⟩
     "will" "staff" ⟨2025, 10, 9, 8, 53⟩ (by decide) (by decide) (by decide) (by decide),
   (infobar_compose_cases envOrphan "/var/file").2.2 ⟨4242, 100, 33188, 512, 1760000000⟩
     (by decide) (.inl (by decide))⟩

/-! ## Claim C5: navigation rejection (`on_new_path`) -/

/-- A filesystem in which `/home` is the only directory and
`/etc/passwd` is a regular file. -/
def fs5 : FS where
  children := fun _ => .error .notFound
  isDir := fun p => p = "/home"
  isFile := fun p => p = "/etc/passwd"
  readLines := fun _ => none
  render := fun _ _ => none
  home := "/home"

/-- C5: navigating to the non-directory `/etc/passwd` from root `/home`
leaves the root, tree and path display unchanged and emits exactly one
non-fatal error notification — but the notification text interpolates
the *current root* (`self.path`), producing `'/home' is not a directory`
about a path that *is* a directory, and never mentions the rejected
candidate `/etc/passwd`.  This exhibits the `self.path`-for-`event.path`
slip in the source's f-string. -/
theorem navigation_rejection_message_bug :
    (PathNavigator.on_new_path fs5 ⟨"/home", "/home", "/home", []⟩ "/etc/passwd").root = "/home"
    ∧ (PathNavigator.on_new_path fs5 ⟨"/home", "/home", "/home", []⟩ "/etc/passwd").treePath
        = "/home"
    ∧ (PathNavigator.on_new_path fs5 ⟨"/home", "/home", "/home", []⟩ "/etc/passwd").displayPath
        = "/home"
    ∧ (PathNavigator.on_new_path fs5 ⟨"/home", "/home", "/home", []⟩ "/etc/passwd").notifications
        = [⟨"'/home' is not a directory", "Change Directory", "error"⟩]
    ∧ strContainsSub "'/home' is not a directory" "/etc/passwd" = false
    ∧ fs5.isDir "/home" = true := by
  decide

/-! ## Preview worker lemmas -/

/-- Every job in a pool processed by `cancelAll` carries the cancelled flag. -/
theorem cancelled_of_mem_cancelAll {l : List PreviewJob} {j : PreviewJob}
    (h : j ∈ cancelAll l) : j.cancelled = true := by
  simp only [cancelAll, List.mem_map] at h
  obtain ⟨i, _, rfl⟩ := h
  rfl

/-- `cancelAll` preserves each job's generation. -/
theorem gen_of_mem_cancelAll {l : List PreviewJob} {j : PreviewJob}
    (h : j ∈ cancelAll l) : ∃ i ∈ l, j.gen = i.gen := by
  simp only [cancelAll, List.mem_map] at h
  obtain ⟨i, hi, rfl⟩ := h
  exact ⟨i, hi, rfl⟩

/-- Completing the read of a generation whose jobs are all cancelled
never changes the visible preview: the cancelled coroutine receives
`CancelledError` at its suspension point and its body never resumes. -/
theorem visible_finishRead_of_cancelled (fs : FS) (g : Nat) (s : PreviewState)
    (hc : ∀ j ∈ s.active, j.gen = g → j.cancelled = true) :
    visible (finishRead fs g s) = visible s := by
  unfold finishRead
  cases hfind : s.active.find? (fun j => j.gen == g) with
  | none => rfl
  | some j =>
    have hmem := List.mem_of_find?_eq_some hfind
    have hpred := List.find?_some hfind
    have hcj : j.cancelled = true := hc j hmem (by simpa using hpred)
    simp [hcj, visible]

/-- Characterization of `finishRead` on an all-cancelled generation:
either no such job was pending (state unchanged) or the job is removed
from the pool and nothing else changes. -/
theorem finishRead_of_cancelled (fs : FS) (g : Nat) (s : PreviewState)
    (hc : ∀ j ∈ s.active, j.gen = g → j.cancelled = true) :
    finishRead fs g s = s ∨
    finishRead fs g s = { s with active := s.active.filter (fun j2 => j2.gen != g) } := by
  unfold finishRead
  cases hfind : s.active.find? (fun j => j.gen == g) with
  | none => exact .inl rfl
  | some j =>
    have hmem := List.mem_of_find?_eq_some hfind
    have hpred := List.find?_some hfind
    have hcj : j.cancelled = true := hc j hmem (by simpa using hpred)
    right
    simp [hcj]

/-- `finishRead` only removes jobs from the pool. -/
theorem finishRead_active_subset (fs : FS) (g : Nat) (s : PreviewState) :
    ∀ j ∈ (finishRead fs g s).active, j ∈ s.active := by
  intro j hj
  unfold finishRead at hj
  cases hfind : s.active.find? (fun j2 => j2.gen == g) with
  | none => rw [hfind] at hj; exact hj
  | some j1 =>
    rw [hfind] at hj
    by_cases hc : j1.cancelled = true
    · simp [hc] at hj
      exact hj.1
    · simp [hc] at hj
      cases hr : fs.readLines j1.path with
      | none => rw [hr] at hj; simp at hj; exact hj.1
      | some code =>
        rw [hr] at hj
        simp [hc] at hj
        cases hren : fs.render j1.path code with
        | none => rw [hren] at hj; simp at hj; exact hj.1
        | some rendered => rw [hren] at hj; simp at hj; exact hj.1

/-- If two states agree on the visible preview and on the job that
`find?` locates for generation `g`, delivering `g`'s read leaves them
agreeing on the visible preview. -/
theorem visible_finishRead_congr (fs : FS) (g : Nat) (s t : PreviewState)
    (hv : visible s = visible t)
    (hf : s.active.find? (fun j => j.gen == g) = t.active.find? (fun j => j.gen == g)) :
    visible (finishRead fs g s) = visible (finishRead fs g t) := by
  have hcontent : s.content = t.content := congrArg Prod.fst hv
  have hunav : s.unavailable = t.unavailable := congrArg Prod.snd hv
  unfold finishRead
  rw [hf]
  cases t.active.find? (fun j => j.gen == g) with
  | none => exact hv
  | some j =>
    by_cases hc : j.cancelled = true
    · simp [hc, visible, hcontent, hunav]
    · simp only [Bool.not_eq_true] at hc
      cases hr : fs.readLines j.path with
      | none => simp [hc, hr, visible]
      | some code =>
        cases hren : fs.render j.path code with
        | none => simp [hc, hr, hren, visible, hcontent, hunav]
        | some rendered => simp [hc, hr, hren, visible]

/-- `find?` is unaffected by filtering with a predicate implied by the
search predicate. -/
theorem find?_filter_of_imp {α : Type} (p q : α → Bool) (l : List α)
    (h : ∀ x, p x = true → q x = true) :
    (l.filter q).find? p = l.find? p := by
  induction l with
  | nil => rfl
  | cons x xs ih =>
    by_cases hq : q x = true
    · by_cases hp : p x = true
      · simp [List.filter_cons, hq, List.find?_cons, hp]
      · simp [List.filter_cons, hq, List.find?_cons, hp, ih]
    · have hp : ¬ p x = true := fun hpx => hq (h x hpx)
      simp [List.filter_cons, hq, List.find?_cons, hp, ih]

/-! ## Claim C7: preview of a non-file -/

/-- A filesystem with no regular files at all. -/
def fs7 : FS where
  children := fun _ => .error .notFound
  isDir := fun p => p = "/some/directory"
  isFile := fun _ => false
  readLines := fun _ => none
  render := fun _ _ => none
  home := "/home/u"

/-- C7 counterexample: requesting a preview of a non-file does *not*
deliver a "no preview" outcome replacing the previous content — the
worker body has no `else` branch for `path.is_file()`, so the previously
displayed content and styling stay exactly as they were and no job
remains pending that could ever change them. -/
theorem preview_nonfile_counterexample :
    (PreviewWindow.updateSyntax fs7 ⟨3, [], "previous file content", false⟩
        "/some/directory").content = "previous file content"
    ∧ (PreviewWindow.updateSyntax fs7 ⟨3, [], "previous file content", false⟩
        "/some/directory").unavailable = false
    ∧ (PreviewWindow.updateSyntax fs7 ⟨3, [], "previous file content", false⟩
        "/some/directory").active = [] := by
  decide

/-- C7 amended: a preview request for a path that is not a regular file
performs no visible update at all — the previously displayed content
remains, no error is raised, and no later read delivery (of any
generation) can change the visible preview either, because the request
cancelled every outstanding job. -/
theorem preview_nonfile_no_update (fs : FS) (s : PreviewState) (path : String)
    (h : fs.isFile path = false) :
    visible (PreviewWindow.updateSyntax fs s path) = visible s
    ∧ ∀ g, visible (finishRead fs g (PreviewWindow.updateSyntax fs s path)) = visible s := by
  have hactive : (PreviewWindow.updateSyntax fs s path).active = cancelAll s.active := by
    simp [PreviewWindow.updateSyntax, h]
  have hvis : visible (PreviewWindow.updateSyntax fs s path) = visible s := by
    simp [PreviewWindow.updateSyntax, h, visible]
  refine ⟨hvis, fun g => ?_⟩
  rw [visible_finishRead_of_cancelled fs g _ ?_, hvis]
  intro j hj _
  rw [hactive] at hj
  exact cancelled_of_mem_cancelAll hj

/-! ## Claim C1: preview supersession -/

/-- C1: if `preview(A)` is issued and `preview(B)` is issued before
`A`'s read completes, then — in whichever order the two reads finish —
`A`'s delivery never changes the visible preview, the final visible
preview is exactly what delivering only `B` produces, and when `B` is a
readable, renderable file its rendered content is what gets applied.
The well-formedness hypothesis says the pool never holds a generation
from the future, which every reachable state satisfies. -/
theorem preview_supersession_correct (fs : FS) (s0 : PreviewState) (pA pB : String)
    (hwf : ∀ j ∈ s0.active, j.gen < s0.nextGen)
    (hA : fs.isFile pA = true) :
    let s2 := PreviewWindow.updateSyntax fs (PreviewWindow.updateSyntax fs s0 pA) pB
    let gA := s0.nextGen
    let gB := s0.nextGen + 1
    visible (finishRead fs gA s2) = visible s2
    ∧ visible (finishRead fs gA (finishRead fs gB s2)) = visible (finishRead fs gB s2)
    ∧ visible (finishRead fs gB (finishRead fs gA s2)) = visible (finishRead fs gB s2)
    ∧ (∀ code rendered, fs.isFile pB = true → fs.readLines pB = some code →
        fs.render pB code = some rendered →
        visible (finishRead fs gB s2) = (rendered, false)) := by
  intro s2 gA gB
  have h1active : (PreviewWindow.updateSyntax fs s0 pA).active
      = cancelAll s0.active ++ [⟨s0.nextGen, pA, false⟩] := by
    simp [PreviewWindow.updateSyntax, hA]
  have h1next : (PreviewWindow.updateSyntax fs s0 pA).nextGen = s0.nextGen + 1 := by
    simp [PreviewWindow.updateSyntax, hA]
  have hall : ∀ j ∈ s2.active, j.cancelled = true ∨ j.gen = gB := by
    intro j hj
    show j.cancelled = true ∨ j.gen = s0.nextGen + 1
    by_cases hB : fs.isFile pB = true
    · have : s2.active = cancelAll (PreviewWindow.updateSyntax fs s0 pA).active
          ++ [⟨(PreviewWindow.updateSyntax fs s0 pA).nextGen, pB, false⟩] := by
        simp [s2, PreviewWindow.updateSyntax, hB]
      rw [this] at hj
      rcases List.mem_append.mp hj with hj1 | hj2
      · exact .inl (cancelled_of_mem_cancelAll hj1)
      · simp at hj2
        subst hj2
        exact .inr h1next
    · have : s2.active = cancelAll (PreviewWindow.updateSyntax fs s0 pA).active := by
        simp only [Bool.not_eq_true] at hB
        simp [s2, PreviewWindow.updateSyntax, hB]
      rw [this] at hj
      exact .inl (cancelled_of_mem_cancelAll hj)
  have hgacts : ∀ j ∈ s2.active, j.gen = gA → j.cancelled = true := by
    intro j hj hg
    rcases hall j hj with hc | hc
    · exact hc
    · have hc2 : j.gen = s0.nextGen + 1 := hc
      rw [hg] at hc2
      exact absurd hc2 (Nat.ne_of_lt (Nat.lt_succ_self s0.nextGen))
  refine ⟨visible_finishRead_of_cancelled fs gA s2 hgacts, ?_, ?_, ?_⟩
  · exact visible_finishRead_of_cancelled fs gA _
      (fun j hj hg => hgacts j (finishRead_active_subset fs gB s2 j hj) hg)
  · rcases finishRead_of_cancelled fs gA s2 hgacts with hEq | hEq
    · rw [hEq]
    · rw [hEq]
      refine visible_finishRead_congr fs gB _ s2 rfl ?_
      refine find?_filter_of_imp _ _ _ (fun x hx => ?_)
      have hxg : x.gen = gB := by simpa using hx
      simp [hxg, gB, bne_iff_ne, Nat.succ_ne_self]
  · intro code rendered hB hr hren
    have h2active : s2.active = cancelAll (PreviewWindow.updateSyntax fs s0 pA).active
        ++ [⟨s0.nextGen + 1, pB, false⟩] := by
      rw [show s0.nextGen + 1 = (PreviewWindow.updateSyntax fs s0 pA).nextGen from h1next.symm]
      simp [s2, PreviewWindow.updateSyntax, hB]
    have hfind : s2.active.find? (fun j => j.gen == gB) = some ⟨gB, pB, false⟩ := by
      rw [h2active, List.find?_append]
      have hnone : (cancelAll (PreviewWindow.updateSyntax fs s0 pA).active).find?
          (fun j => j.gen == gB) = none := by
        refine List.find?_eq_none.mpr (fun x hx => ?_)
        obtain ⟨i, hi, hg⟩ := gen_of_mem_cancelAll hx
        rw [h1active] at hi
        rcases List.mem_append.mp hi with hi0 | hiA
        · obtain ⟨i0, hi0m, hg0⟩ := gen_of_mem_cancelAll hi0
          have hlt : i0.gen < s0.nextGen := hwf i0 hi0m
          have : x.gen < s0.nextGen + 1 := by
            rw [hg, hg0]
            exact Nat.lt_succ_of_lt hlt
          simp [Nat.ne_of_lt this]
        · simp at hiA
          have : x.gen = s0.nextGen := by rw [hg, hiA]
          simp [this]
          exact Nat.ne_of_lt (Nat.lt_succ_self s0.nextGen)
      rw [hnone]
      simp [List.find?]
    unfold finishRead
    rw [hfind]
    simp [hr, hren, visible]

/-- A filesystem with two readable text files, for the preview witnesses. -/
def fsPrev : FS where
  children := fun _ => .error .notFound
  isDir := fun _ => false
  isFile := fun p => p = "/a.txt" || p = "/b.txt"
  readLines := fun p =>
    if p = "/a.txt" then some "content A"
    else if p = "/b.txt" then some "content B" else none
  render := fun p code => some (p ++ ":" ++ code)
  home := "/home/u"

/-- C1 witness: `preview_supersession_correct` at the empty initial
state with `preview("/a.txt")` then `preview("/b.txt")`: `A`'s delivery
changes nothing and the final visible preview is `B`'s rendered content. -/
theorem preview_supersession_correct_witness :
    visible (finishRead fsPrev 0 (PreviewWindow.updateSyntax fsPrev
        (PreviewWindow.updateSyntax fsPrev PreviewState.init "/a.txt") "/b.txt"))
      = visible (PreviewWindow.updateSyntax fsPrev
        (PreviewWindow.updateSyntax fsPrev PreviewState.init "/a.txt") "/b.txt")
    ∧ visible (finishRead fsPrev 1 (PreviewWindow.updateSyntax fsPrev
        (PreviewWindow.updateSyntax fsPrev PreviewState.init "/a.txt") "/b.txt"))
      = ("/b.txt:content B", false) :=
  ⟨(preview_supersession_correct fsPrev PreviewState.init "/a.txt" "/b.txt"
      (by decide) (by decide)).1,
   (preview_supersession_correct fsPrev PreviewState.init "/a.txt" "/b.txt"
      (by decide) (by decide)).2.2.2 "content B" "/b.txt:content B"
      (by decide) (by decide) (by decide)⟩

/-- C7 amended witness: `preview_nonfile_no_update` applied at a
concrete state holding earlier content. -/
theorem preview_nonfile_no_update_witness :
    visible (PreviewWindow.updateSyntax fs7 ⟨3, [], "previous file content", false⟩
        "/some/directory") = ("previous file content", false)
    ∧ ∀ g, visible (finishRead fs7 g (PreviewWindow.updateSyntax fs7
        ⟨3, [], "previous file content", false⟩ "/some/directory"))
        = ("previous file content", false) :=
  preview_nonfile_no_update fs7 ⟨3, [], "previous file content", false⟩
    "/some/directory" (by decide)
